import Mathlib

/-!
Verification of the token-bucket rate limiter (mikuspikus/go-rate-limiter).

The Go sources are shallowly embedded as pure Lean functions:
* Go `uint64` arithmetic is modelled as `ℕ` with an explicit `% 2^64`
  wrapper (`add64`, `sub64`, `mul64`) at every operation of the source
  that can wrap.
* Go `float64` values (the bucket's `fillRate`) are modelled as `ℚ`;
  IEEE doubles round to 53 bits, which is exact for every magnitude
  appearing in the theorems below, and the Go conversion
  `uint64(float64 expr)` truncates a nonnegative value, i.e. takes the
  floor.
* The impure clock `nanoNow()` is made an explicit `now : ℕ` argument.
* Go maps and Redis hashes become functions into `Option`; mutation of
  a bucket behind a pointer becomes writing the updated bucket back
  into the map, which is the same state transformation.
* Errors are `Option GoError` (`none` = Go `nil`).
-/

/-- Modulus of Go `uint64` arithmetic. -/
def u64 : ℕ := 2 ^ 64

/-- Go `uint64` addition (wraps modulo `2^64`). -/
def add64 (a b : ℕ) : ℕ := (a + b) % u64

/-- Go `uint64` subtraction (wraps modulo `2^64`). -/
def sub64 (a b : ℕ) : ℕ := (a + (u64 - b % u64)) % u64

/-- Go `uint64` multiplication (wraps modulo `2^64`). -/
def mul64 (a b : ℕ) : ℕ := (a * b) % u64

theorem add64_eq {a b : ℕ} (h : a + b < u64) : add64 a b = a + b := by
  simpa [add64] using Nat.mod_eq_of_lt h

theorem sub64_eq {a b : ℕ} (hba : b ≤ a) (ha : a < u64) : sub64 a b = a - b := by
  have hb : b < u64 := lt_of_le_of_lt hba ha
  have hbmod : b % u64 = b := Nat.mod_eq_of_lt hb
  have harr : a + (u64 - b) = (a - b) + u64 := by omega
  have : sub64 a b = ((a - b) + u64) % u64 := by
    simp [sub64, hbmod, harr]
  rw [this, Nat.add_mod_right, Nat.mod_eq_of_lt (by omega)]

theorem mul64_eq {a b : ℕ} (h : a * b < u64) : mul64 a b = a * b := by
  simpa [mul64] using Nat.mod_eq_of_lt h

/-- Errors returned by the Go code. `errStopped` is the package-level
`ratelimiter.ErrStopped`; `errStoppedFlag` is `memstorage.ErrStoppedFlag`. -/
inductive GoError where
  | errStopped : GoError
  | errStoppedFlag : GoError
deriving DecidableEq, Repr

/-- Embeds `tick` from `src/pkg/memstorage` (bucket implementation):
`(current - start) / uint64(interval)` in `uint64` arithmetic. -/
def tick (start current : ℕ) (interval : ℕ) : ℕ :=
  sub64 current start / interval

/-- Embeds `availableTokens(lastTick, currentTick, max uint64, fillRate float64)`:
`delta := currentTick - lastTick`, `available := uint64(float64(delta) * fillRate)`,
clamped at `max`. The float product is modelled in `ℚ`, the truncating
Go conversion as `Int.toNat ∘ Int.floor`. -/
def availableTokens (lastTick currentTick max : ℕ) (fillRate : ℚ) : ℕ :=
  let delta := sub64 currentTick lastTick
  let available := Int.toNat ⌊(delta : ℚ) * fillRate⌋
  if available > max then max else available

/-- Alias for `availableTokens`, needed inside the `bucket` namespace
where the bare name resolves to the structure projection of the same
(source-mandated) name. -/
def availableTokensCalc (lastTick currentTick max : ℕ) (fillRate : ℚ) : ℕ :=
  availableTokens lastTick currentTick max fillRate

/-- Embeds the `bucket` struct of `src/pkg/memstorage` (the `sync.Mutex`
field guards sequential access and has no sequential content). -/
structure bucket where
  startTime : ℕ
  maxTokens : ℕ
  interval : ℕ
  fillRate : ℚ
  availableTokens : ℕ
  lastTick : ℕ
deriving DecidableEq, Repr

/-- Embeds `newBucket(tokens uint64, interval time.Duration)`; the
`nanoNow()` call becomes the explicit argument `now`.
`fillRate = float64(interval) / float64(tokens)` becomes `ℚ` division. -/
def newBucket (tokens interval now : ℕ) : bucket :=
  { startTime := now
    maxTokens := tokens
    interval := interval
    fillRate := (interval : ℚ) / (tokens : ℚ)
    availableTokens := tokens
    lastTick := 0 }

/-- Return value of `bucket.take` / `MemStorage.Take`:
`(tokens, remaining, reset uint64, ok bool, err error)`. -/
structure TakeResult where
  limit : ℕ
  remaining : ℕ
  reset : ℕ
  ok : Bool
  err : Option GoError
deriving DecidableEq, Repr

/-- Embeds `(b *bucket) take()`. Returns the Go results together with the
updated bucket state. Go fields left at their zero value (remaining on a
failed take) are `0`, exactly as in the source. -/
def bucket.take (b : bucket) (now : ℕ) : TakeResult × bucket :=
  let currentTick := tick b.startTime now b.interval
  let reset := add64 b.startTime (mul64 (add64 currentTick 1) b.interval)
  let b1 :=
    if b.lastTick < currentTick then
      { b with
        availableTokens := availableTokensCalc b.lastTick currentTick b.maxTokens b.fillRate
        lastTick := currentTick }
    else b
  if 0 < b1.availableTokens then
    (⟨b.maxTokens, b1.availableTokens - 1, reset, true, none⟩,
      { b1 with availableTokens := b1.availableTokens - 1 })
  else
    (⟨b.maxTokens, 0, reset, false, none⟩, b1)

/-- Embeds `(b *bucket) get()`: returns `(maxTokens, availableTokens, nil)`. -/
def bucket.get (b : bucket) : ℕ × ℕ × Option GoError :=
  (b.maxTokens, b.availableTokens, none)

/-- CLAIM C1. The claim asserts that for every capacity `N ≥ 1` and
interval `D`, one elapsed tick refills the bucket to exactly
`maxTokens`, i.e. `min(maxTokens, 1 * fillRate) = maxTokens` for the
`fillRate` the implementation derives. The implementation derives
`fillRate = interval / maxTokens` (`newBucket`), and for `N = 2`,
`D = 2` (ns) one elapsed tick refills to `min(2, ⌊1 * (2/2)⌋) = 1 ≠ 2`:
the `take` at `now = 2` (current tick `1 = lastTick + 1`) leaves balance
`0` after consuming instead of `maxTokens - 1 = 1`. All float64
operations involved (`2.0/2.0`, `1.0*1.0`) are exact, so the `ℚ` model
coincides with the Go computation here. -/
theorem C1_one_tick_refill_not_full :
    tick (newBucket 2 2 0).startTime 2 (newBucket 2 2 0).interval =
      (newBucket 2 2 0).lastTick + 1 ∧
    availableTokens (newBucket 2 2 0).lastTick 1 (newBucket 2 2 0).maxTokens
      (newBucket 2 2 0).fillRate = 1 ∧
    (1 : ℕ) ≠ (newBucket 2 2 0).maxTokens ∧
    ((newBucket 2 2 0).take 2).1.ok = true ∧
    ((newBucket 2 2 0).take 2).1.remaining = 0 ∧
    ((newBucket 2 2 0).take 2).2.availableTokens = 0 := by
  have hb : newBucket 2 2 0 = ⟨0, 2, 2, 1, 2, 0⟩ := by
    simp [newBucket]
  have htick : tick 0 2 2 = 1 := by decide
  have hsub : sub64 1 0 = 1 := by decide
  have hav : availableTokens 0 1 2 1 = 1 := by
    simp [availableTokens, hsub]
  have htake : bucket.take ⟨0, 2, 2, 1, 2, 0⟩ 2 = (⟨2, 0, 4, true, none⟩, ⟨0, 2, 2, 1, 0, 1⟩) := by
    simp [bucket.take, htick, availableTokensCalc, hav]
    decide
  rw [hb]
  refine ⟨by simpa using htick, by simpa using hav, by decide, ?_, ?_, ?_⟩ <;>
    simp [htake]

/-- Writes `storage.buckets[key] = b` of a Go map, as a function update. -/
def setBucket (m : String → Option bucket) (key : String) (b : bucket) :
    String → Option bucket :=
  fun k => if k = key then some b else m k

/-- Embeds `MemStorage` of `src/memstorage/memstorage.go`. The Go map of
bucket pointers becomes a function into `Option bucket`; the atomic
`stopped uint32` flag becomes a `Bool`; the sweep configuration and
channels carry no sequential content for the claims and are omitted
from the state. -/
structure MemStorage where
  tokens : ℕ
  interval : ℕ
  buckets : String → Option bucket
  stopped : Bool

/-- Embeds `NewMemStorage`'s resolution of `Config.Tokens` and
`Config.Interval` (defaults 1 and 1s) and the empty bucket map. -/
def NewMemStorage (cfgTokens cfgInterval : ℕ) : MemStorage :=
  { tokens := if 0 < cfgTokens then cfgTokens else 1
    interval := if 0 < cfgInterval then cfgInterval else 1000000000
    buckets := fun _ => none
    stopped := false }

/-- Embeds `(storage *MemStorage) Take(ctx, key)`. Sequentially, the
read-lock fast path, the double-checked write-lock path and the
create-then-take path collapse to: look the key up, create the bucket
if absent, then run `bucket.take`. The bucket mutated through its
pointer is written back into the map. -/
def MemStorage.Take (s : MemStorage) (key : String) (now : ℕ) :
    TakeResult × MemStorage :=
  if s.stopped then
    (⟨0, 0, 0, false, some GoError.errStopped⟩, s)
  else
    match s.buckets key with
    | some b =>
        let r := b.take now
        (r.1, { s with buckets := setBucket s.buckets key r.2 })
    | none =>
        let b := newBucket s.tokens s.interval now
        let r := b.take now
        (r.1, { s with buckets := setBucket s.buckets key r.2 })

/-- Embeds `(storage *MemStorage) Get(ctx, key)`: stopped check, then a
lookup that does not create state; unknown keys yield zeros. -/
def MemStorage.Get (s : MemStorage) (key : String) : ℕ × ℕ × Option GoError :=
  if s.stopped then
    (0, 0, some GoError.errStopped)
  else
    match s.buckets key with
    | some b => b.get
    | none => (0, 0, none)

/-- Embeds `(storage *MemStorage) Set(ctx, key, tokens, interval)`.
The source performs no stopped-flag check: it unconditionally installs
a fresh bucket and returns `nil`. -/
def MemStorage.Set (s : MemStorage) (key : String) (tokens interval now : ℕ) :
    Option GoError × MemStorage :=
  (none, { s with buckets := setBucket s.buckets key (newBucket tokens interval now) })

/-- Embeds `(storage *MemStorage) Burst(ctx, key, tokens)`. The source
performs no stopped-flag check. An existing bucket gets
`availableTokens += tokens` (uint64 addition); an absent key gets a
fresh bucket of capacity `storage.tokens + tokens`. -/
def MemStorage.Burst (s : MemStorage) (key : String) (tokens now : ℕ) :
    Option GoError × MemStorage :=
  match s.buckets key with
  | some b =>
      let b1 := { b with availableTokens := add64 b.availableTokens tokens }
      (none, { s with buckets := setBucket s.buckets key b1 })
  | none =>
      let b1 := newBucket (add64 s.tokens tokens) s.interval now
      (none, { s with buckets := setBucket s.buckets key b1 })

/-- Embeds `(storage *MemStorage) Close(ctx)`: the compare-and-swap on
the stopped flag fails with `ErrStoppedFlag` when already stopped;
otherwise the flag is set and the bucket map is cleared. -/
def MemStorage.Close (s : MemStorage) : Option GoError × MemStorage :=
  if s.stopped then
    (some GoError.errStoppedFlag, s)
  else
    (none, { s with stopped := true, buckets := fun _ => none })

/-- Runs a sequence of `Take` calls on one key at the given times,
collecting the per-call results (the shape of the loops in
`TestMemStorage_Take`). -/
def MemStorage.takeSeq (s : MemStorage) (key : String) :
    List ℕ → List TakeResult × MemStorage
  | [] => ([], s)
  | now :: rest =>
      let r := s.Take key now
      let rs := r.2.takeSeq key rest
      (r.1 :: rs.1, rs.2)

theorem tick_eq_zero {start now interval : ℕ} (h1 : start ≤ now)
    (h2 : now < start + interval) (h3 : start + interval ≤ u64) :
    tick start now interval = 0 := by
  have hnow : now < u64 := lt_of_lt_of_le h2 h3
  have hsub : sub64 now start = now - start := sub64_eq h1 hnow
  have hlt : now - start < interval := by omega
  simp [tick, hsub, Nat.div_eq_of_lt hlt]

theorem take_tick_zero (b : bucket) (now : ℕ) (hl : b.lastTick = 0)
    (h1 : b.startTime ≤ now) (h2 : now < b.startTime + b.interval)
    (h3 : b.startTime + b.interval ≤ u64) :
    b.take now =
      (⟨b.maxTokens, b.availableTokens - 1,
          add64 b.startTime (mul64 (add64 0 1) b.interval),
          decide (0 < b.availableTokens), none⟩,
        { b with availableTokens := b.availableTokens - 1 }) := by
  have h0 : tick b.startTime now b.interval = 0 := tick_eq_zero h1 h2 h3
  obtain ⟨st, mx, iv, fr, av, lt⟩ := b
  simp only [bucket.lastTick] at hl
  subst hl
  simp only [bucket.startTime, bucket.interval] at h0
  rcases Nat.eq_zero_or_pos av with hz | hp
  · subst hz
    simp [bucket.take, h0]
  · simp [bucket.take, h0, hp, Nat.pos_iff_ne_zero.mp hp]

theorem setBucket_self (m : String → Option bucket) (key : String) (b : bucket) :
    setBucket m key b key = some b := by
  simp [setBucket]


theorem takeSeq_window (nows : List ℕ) :
    ∀ (s : MemStorage) (key : String) (b : bucket),
      s.stopped = false →
      s.buckets key = some b →
      b.lastTick = 0 →
      (∀ t ∈ nows, b.startTime ≤ t ∧ t < b.startTime + b.interval) →
      b.startTime + b.interval ≤ u64 →
      ∀ i r, (s.takeSeq key nows).1.get? i = some r →
        r.ok = decide (i < b.availableTokens) ∧
        r.remaining = b.availableTokens - 1 - i ∧
        r.limit = b.maxTokens ∧ r.err = none := by
  induction nows with
  | nil =>
      intro s key b _ _ _ _ _ i r hr
      simp [MemStorage.takeSeq] at hr
  | cons now rest ih =>
      intro s key b hs hb hl hw hu i r hr
      have hwin := hw now (by simp)
      have htk := take_tick_zero b now hl hwin.1 hwin.2 hu
      have hfirst : (s.takeSeq key (now :: rest)).1 = (b.take now).1 :: (({ s with buckets := setBucket s.buckets key (b.take now).2 }).takeSeq key rest).1 := by
        simp [MemStorage.takeSeq, MemStorage.Take, hs, hb]
      rw [hfirst] at hr
      cases i with
      | zero =>
          simp only [List.get?, Option.some.injEq] at hr
          subst hr
          rw [htk]
          refine ⟨rfl, by simp, rfl, rfl⟩
      | succ j =>
          simp only [List.get?] at hr
          have hbf : ({ s with buckets := setBucket s.buckets key (b.take now).2 } : MemStorage).buckets key = some ((b.take now).2) := setBucket_self _ _ _
          have hres := ih ({ s with buckets := setBucket s.buckets key (b.take now).2 }) key ((b.take now).2)
            (by simp [hs]) hbf (by rw [htk]; exact hl) (by intro t ht; rw [htk]; exact hw t (by simp [ht])) (by rw [htk]; simpa using hu) j r hr
          rw [htk] at hres
          refine ⟨?_, ?_, ?_, ?_⟩
          · rw [hres.1]
            have hiff : (j < b.availableTokens - 1) ↔ (j + 1 < b.availableTokens) := by omega
            simp [decide_eq_decide.mpr hiff]
          · rw [hres.2.1]
            simp only []
            omega
          · exact hres.2.2.1
          · exact hres.2.2.2

/-- CLAIM C3. For every capacity `N ≥ 1`, starting from a fresh key, any
sequence of sequential `Take` calls whose times all lie inside the first
interval of the bucket created by the first call returns, for the `i`-th
call, `ok = (i < N)` and `remaining = N - 1 - i` (so the first `N` calls
succeed with remaining `N-1, ..., 0` and every later call in the same
interval fails with remaining `0`); no call errors. `now0` is the time
of the first call, which creates the bucket. -/
theorem C3_fresh_key_first_interval
    (s : MemStorage) (key : String) (now0 : ℕ) (rest : List ℕ) (i : ℕ) (r : TakeResult)
    (hs : s.stopped = false) (hfresh : s.buckets key = none) (hN : 1 ≤ s.tokens)
    (hw : ∀ t ∈ now0 :: rest, now0 ≤ t ∧ t < now0 + s.interval)
    (hu : now0 + s.interval ≤ u64)
    (hr : (s.takeSeq key (now0 :: rest)).1.get? i = some r) :
    r.ok = decide (i < s.tokens) ∧ r.remaining = s.tokens - 1 - i ∧
    r.limit = s.tokens ∧ r.err = none := by
  have hwin := hw now0 (by simp)
  have hl0 : (newBucket s.tokens s.interval now0).lastTick = 0 := rfl
  have htk := take_tick_zero (newBucket s.tokens s.interval now0) now0 hl0
    (le_refl now0) hwin.2 hu
  have hfirst : (s.takeSeq key (now0 :: rest)).1 = ((newBucket s.tokens s.interval now0).take now0).1 :: (({ s with buckets := setBucket s.buckets key ((newBucket s.tokens s.interval now0).take now0).2 }).takeSeq key rest).1 := by
    simp [MemStorage.takeSeq, MemStorage.Take, hs, hfresh]
  rw [hfirst] at hr
  cases i with
  | zero =>
      simp only [List.get?, Option.some.injEq] at hr
      subst hr
      rw [htk]
      refine ⟨by simp [newBucket, Nat.lt_of_lt_of_le Nat.zero_lt_one hN], by simp [newBucket], rfl, rfl⟩
  | succ j =>
      simp only [List.get?] at hr
      have hres := takeSeq_window rest ({ s with buckets := setBucket s.buckets key ((newBucket s.tokens s.interval now0).take now0).2 }) key (((newBucket s.tokens s.interval now0).take now0).2)
        (by simp [hs]) (setBucket_self _ _ _) (by rw [htk]; exact hl0) (by intro t ht; rw [htk]; exact hw t (by simp [ht])) (by rw [htk]; exact hu) j r hr
      rw [htk] at hres
      simp only [newBucket] at hres
      refine ⟨?_, ?_, ?_, ?_⟩
      · rw [hres.1]
        exact decide_eq_decide.mpr (by omega)
      · rw [hres.2.1]
        omega
      · exact hres.2.2.1
      · exact hres.2.2.2

/-- Witness for C3: a storage of capacity 2 and interval 10ns, three
takes at times 0, 1, 2 — the third call (index 2) fails with
remaining 0. -/
theorem C3_fresh_key_first_interval_witness :
    1 ≤ (NewMemStorage 2 10).tokens ∧
    (⟨2, 0, 10, false, none⟩ : TakeResult).ok = decide (2 < (NewMemStorage 2 10).tokens) ∧
    (⟨2, 0, 10, false, none⟩ : TakeResult).remaining = (NewMemStorage 2 10).tokens - 1 - 2 ∧
    (⟨2, 0, 10, false, none⟩ : TakeResult).limit = (NewMemStorage 2 10).tokens ∧
    (⟨2, 0, 10, false, none⟩ : TakeResult).err = none :=
  ⟨by decide,
    (C3_fresh_key_first_interval (NewMemStorage 2 10) "k" 0 [1, 2] 2 ⟨2, 0, 10, false, none⟩
      rfl rfl (by decide) (by decide) (by decide) rfl).1,
    (C3_fresh_key_first_interval (NewMemStorage 2 10) "k" 0 [1, 2] 2 ⟨2, 0, 10, false, none⟩
      rfl rfl (by decide) (by decide) (by decide) rfl).2.1,
    (C3_fresh_key_first_interval (NewMemStorage 2 10) "k" 0 [1, 2] 2 ⟨2, 0, 10, false, none⟩
      rfl rfl (by decide) (by decide) (by decide) rfl).2.2.1,
    (C3_fresh_key_first_interval (NewMemStorage 2 10) "k" 0 [1, 2] 2 ⟨2, 0, 10, false, none⟩
      rfl rfl (by decide) (by decide) (by decide) rfl).2.2.2⟩

theorem take_reset (b : bucket) (now : ℕ) :
    (b.take now).1.reset =
      add64 b.startTime (mul64 (add64 (tick b.startTime now b.interval) 1) b.interval) := by
  simp only [bucket.take]
  split <;> split <;> rfl

theorem take_frame (b : bucket) (now : ℕ) :
    (b.take now).2.startTime = b.startTime ∧ (b.take now).2.interval = b.interval ∧
    (b.take now).2.maxTokens = b.maxTokens := by
  simp only [bucket.take]
  split <;> split <;> simp

theorem take_reset_eq (b : bucket) (now : ℕ) (hs : b.startTime ≤ now)
    (hu : now + b.interval < u64) (hd : 0 < b.interval) :
    (b.take now).1.reset = b.startTime + (tick b.startTime now b.interval + 1) * b.interval := by
  have hnow : now < u64 := by omega
  have hsub : sub64 now b.startTime = now - b.startTime := sub64_eq hs hnow
  have htle : tick b.startTime now b.interval ≤ now - b.startTime := by
    rw [tick, hsub]
    exact Nat.div_le_self _ _
  have hmul : (tick b.startTime now b.interval) * b.interval ≤ now - b.startTime := by
    rw [tick, hsub]
    exact Nat.div_mul_le_self _ _
  have hexp : (tick b.startTime now b.interval + 1) * b.interval =
      (tick b.startTime now b.interval) * b.interval + b.interval := by ring
  have h1 : add64 (tick b.startTime now b.interval) 1 = tick b.startTime now b.interval + 1 :=
    add64_eq (by omega)
  have h2 : mul64 (tick b.startTime now b.interval + 1) b.interval =
      (tick b.startTime now b.interval + 1) * b.interval := mul64_eq (by omega)
  have h3 : add64 b.startTime ((tick b.startTime now b.interval + 1) * b.interval) =
      b.startTime + (tick b.startTime now b.interval + 1) * b.interval := add64_eq (by omega)
  rw [take_reset, h1, h2, h3]

theorem tick_mono {start now1 now2 interval : ℕ} (h1 : start ≤ now1) (h12 : now1 ≤ now2)
    (hlt : now2 < u64) : tick start now1 interval ≤ tick start now2 interval := by
  rw [tick, tick, sub64_eq h1 (by omega), sub64_eq (le_trans h1 h12) hlt]
  exact Nat.div_le_div_right (by omega)

/-- CLAIM C5. For every `Take` on a bucket at time `now` (after the
bucket's creation instant, with no wraparound), the returned `reset`
equals `startTime + (tick(startTime, now, interval) + 1) * interval`;
the formula does not involve the token balance or `ok` at all (the
source computes `reset` before the refill/consume branches), so the
value is the same whether `ok` is true or false. For two successive
`Take` calls on the same bucket at times `now1 ≤ now2`, the second
`reset` is at least the first. -/
theorem C5_reset_formula_monotone (b : bucket) (now1 now2 : ℕ)
    (h1 : b.startTime ≤ now1) (h12 : now1 ≤ now2)
    (hu : now2 + b.interval < u64) (hd : 0 < b.interval) :
    (b.take now1).1.reset =
      b.startTime + (tick b.startTime now1 b.interval + 1) * b.interval ∧
    (b.take now1).1.reset ≤ (((b.take now1).2).take now2).1.reset := by
  have hfr := take_frame b now1
  have e1 := take_reset_eq b now1 h1 (by omega) hd
  have e2 : (((b.take now1).2).take now2).1.reset =
      b.startTime + (tick b.startTime now2 b.interval + 1) * b.interval := by
    have := take_reset_eq ((b.take now1).2) now2
      (by rw [hfr.1]; exact le_trans h1 h12)
      (by rw [hfr.2.1]; exact hu) (by rw [hfr.2.1]; exact hd)
    rw [this, hfr.1, hfr.2.1]
  have hmono := @tick_mono b.startTime now1 now2 b.interval h1 h12 (by omega)
  rw [e1, e2]
  exact ⟨rfl, Nat.add_le_add_left (Nat.mul_le_mul_right _ (by omega)) _⟩

/-- Witness for C5: a capacity-1 bucket created at time 0 with interval
10ns, takes at times 5 and 7 — the first reset is 10 and the second
is also 10. -/
theorem C5_reset_formula_monotone_witness :
    ((newBucket 1 10 0).take 5).1.reset =
      (newBucket 1 10 0).startTime +
        (tick (newBucket 1 10 0).startTime 5 (newBucket 1 10 0).interval + 1) *
          (newBucket 1 10 0).interval ∧
    ((newBucket 1 10 0).take 5).1.reset ≤ (((newBucket 1 10 0).take 5).2.take 7).1.reset :=
  C5_reset_formula_monotone (newBucket 1 10 0) 5 7 (by decide) (by decide) (by decide) (by decide)

theorem availableTokens_le (l c m : ℕ) (r : ℚ) : availableTokens l c m r ≤ m := by
  simp only [availableTokens]
  split <;> omega

theorem take_inv (b : bucket) (now : ℕ) (h : b.availableTokens ≤ b.maxTokens) :
    (b.take now).2.availableTokens ≤ (b.take now).2.maxTokens := by
  have hle := availableTokens_le b.lastTick (tick b.startTime now b.interval) b.maxTokens b.fillRate
  simp only [bucket.take, availableTokensCalc]
  split <;> split <;> simp <;> omega

/-- One sequential operation against a `MemStorage` (`Close` aside),
used to speak about states reachable by completed operations. -/
inductive MemOp where
  | opTake (key : String) (now : ℕ)
  | opGet (key : String)
  | opSet (key : String) (tokens interval now : ℕ)
  | opBurst (key : String) (tokens now : ℕ)
deriving DecidableEq, Repr

def MemOp.isBurst : MemOp → Bool
  | opBurst _ _ _ => true
  | _ => false

/-- State after one operation (the returned values are irrelevant to
the state invariant). -/
def applyOp (s : MemStorage) : MemOp → MemStorage
  | .opTake key now => (s.Take key now).2
  | .opGet _ => s
  | .opSet key tokens interval now => (s.Set key tokens interval now).2
  | .opBurst key tokens now => (s.Burst key tokens now).2

def applyOps (s : MemStorage) : List MemOp → MemStorage
  | [] => s
  | op :: rest => applyOps (applyOp s op) rest

/-- Per-key balance bound: every stored bucket satisfies
`availableTokens ≤ maxTokens` (the lower bound `0 ≤ availableTokens`
is inherent to the `uint64`/`ℕ` type). -/
def MemInv (s : MemStorage) : Prop :=
  ∀ k b, s.buckets k = some b → b.availableTokens ≤ b.maxTokens

theorem applyOp_inv (s : MemStorage) (op : MemOp) (hnb : op.isBurst = false)
    (h : MemInv s) : MemInv (applyOp s op) := by
  cases op with
  | opGet key => exact h
  | opBurst key tokens now => simp [MemOp.isBurst] at hnb
  | opSet key tokens interval now =>
      intro k bb hbb
      by_cases hk : k = key
      · subst hk
        simp [applyOp, MemStorage.Set, setBucket] at hbb
        subst hbb
        simp [newBucket]
      · simp [applyOp, MemStorage.Set, setBucket, hk] at hbb
        exact h k bb hbb
  | opTake key now =>
      intro k bb hbb
      by_cases hst : s.stopped
      · simp [applyOp, MemStorage.Take, hst] at hbb
        exact h k bb hbb
      · cases hbk : s.buckets key with
        | some b =>
            simp only [applyOp, MemStorage.Take, hst, hbk, if_neg, Bool.false_eq_true,
              ite_false] at hbb
            by_cases hk : k = key
            · subst hk
              simp [setBucket] at hbb
              subst hbb
              exact take_inv b now (h k b hbk)
            · simp [setBucket, hk] at hbb
              exact h k bb hbb
        | none =>
            simp only [applyOp, MemStorage.Take, hst, hbk, if_neg, Bool.false_eq_true,
              ite_false] at hbb
            by_cases hk : k = key
            · subst hk
              simp [setBucket] at hbb
              subst hbb
              exact take_inv (newBucket s.tokens s.interval now) now (by simp [newBucket])
            · simp [setBucket, hk] at hbb
              exact h k bb hbb

/-- CLAIM C7 counterexample. The claim asserts
`0 ≤ availableTokens ≤ maxTokens` after every completed `Take`, `Get`,
`Set`, or `Burst`. On a capacity-1 storage, `Take` (balance 0) followed
by the completed operation `Burst(key, 5)` leaves the stored bucket with
`availableTokens = 5 > 1 = maxTokens`. -/
theorem C7_counterexample_burst_exceeds_max :
    (((NewMemStorage 1 10).Take "k" 0).2.Burst "k" 5 0).2.buckets "k" =
      some (bucket.mk 0 1 10 (((10 : ℕ) : ℚ) / ((1 : ℕ) : ℚ)) 5 0) ∧
    ¬ ((bucket.mk 0 1 10 (((10 : ℕ) : ℚ) / ((1 : ℕ) : ℚ)) 5 0).availableTokens ≤
        (bucket.mk 0 1 10 (((10 : ℕ) : ℚ) / ((1 : ℕ) : ℚ)) 5 0).maxTokens) :=
  ⟨rfl, by decide⟩

/-- CLAIM C7, amended. The bound `availableTokens ≤ maxTokens` (with
`0 ≤ availableTokens` inherent to the unsigned type) holds after every
completed `Take`, `Get` or `Set` — i.e. along any operation sequence
that contains no `Burst` — starting from any state satisfying it;
`Burst` on an existing bucket can push the balance above `maxTokens`
(see the counterexample), exactly as the spec's own caveat on `Burst`
says. -/
theorem C7_amended_invariant_no_burst (s : MemStorage) (ops : List MemOp)
    (hnb : ∀ op ∈ ops, op.isBurst = false) (h : MemInv s) :
    MemInv (applyOps s ops) := by
  induction ops generalizing s with
  | nil => exact h
  | cons op rest ih =>
      exact ih (applyOp s op) (fun o ho => hnb o (by simp [ho]))
        (applyOp_inv s op (hnb op (by simp)) h)

/-- Witness for the amended C7: capacity-3 storage, a take, a set and
another take; the bucket stored at key "b" ends with balance 4 below
its capacity 5. -/
theorem C7_amended_invariant_no_burst_witness :
    (applyOps (NewMemStorage 3 10)
        [MemOp.opTake "a" 0, MemOp.opSet "b" 5 7 1, MemOp.opTake "b" 2]).buckets "b" =
      some (bucket.mk 1 5 7 (((7 : ℕ) : ℚ) / ((5 : ℕ) : ℚ)) 4 0) ∧
    (bucket.mk 1 5 7 (((7 : ℕ) : ℚ) / ((5 : ℕ) : ℚ)) 4 0).availableTokens ≤
      (bucket.mk 1 5 7 (((7 : ℕ) : ℚ) / ((5 : ℕ) : ℚ)) 4 0).maxTokens :=
  ⟨rfl,
    C7_amended_invariant_no_burst (NewMemStorage 3 10)
      [MemOp.opTake "a" 0, MemOp.opSet "b" 5 7 1, MemOp.opTake "b" 2]
      (by decide) (fun k b hb => by simp [NewMemStorage] at hb)
      "b" (bucket.mk 1 5 7 (((7 : ℕ) : ℚ) / ((5 : ℕ) : ℚ)) 4 0) rfl⟩

theorem take_no_refill_pos (b : bucket) (now : ℕ)
    (htk : tick b.startTime now b.interval ≤ b.lastTick)
    (hpos : 0 < b.availableTokens) :
    (b.take now).1.ok = true ∧ (b.take now).1.remaining = b.availableTokens - 1 := by
  have hnr : ¬ (b.lastTick < tick b.startTime now b.interval) := by omega
  constructor <;> simp [bucket.take, hnr, hpos]

/-- CLAIM C8. `Burst(key, B)` on an existing bucket with balance `R`
returns no error and stores exactly the same bucket with
`availableTokens = R + B` (uint64 addition), leaving `startTime`,
`lastTick`, `interval` and `maxTokens` unchanged (the record update
touches no other field) and every other key untouched; a `Take` in the
bucket's current tick (with `B ≥ 1`, no wraparound, live storage) then
succeeds and reports `remaining = R + B - 1`. On an absent key, `Burst`
creates the key's bucket with capacity (and balance)
`storage.tokens + B`. -/
theorem C8_burst_adds_balance (s : MemStorage) (key : String) (b : bucket)
    (B now nowT : ℕ) :
    (s.buckets key = some b →
      (s.Burst key B now).1 = none ∧
      (s.Burst key B now).2.buckets key =
        some { b with availableTokens := add64 b.availableTokens B } ∧
      (∀ k2, k2 ≠ key → (s.Burst key B now).2.buckets k2 = s.buckets k2) ∧
      (s.stopped = false → 1 ≤ B → b.availableTokens + B < u64 →
        tick b.startTime nowT b.interval = b.lastTick →
        ((s.Burst key B now).2.Take key nowT).1.ok = true ∧
        ((s.Burst key B now).2.Take key nowT).1.remaining = b.availableTokens + B - 1)) ∧
    (s.buckets key = none →
      (s.Burst key B now).1 = none ∧
      (s.Burst key B now).2.buckets key =
        some (newBucket (add64 s.tokens B) s.interval now)) := by
  constructor
  · intro hb
    have hB : s.Burst key B now = (none, { s with buckets := setBucket s.buckets key ({ b with availableTokens := add64 b.availableTokens B }) }) := by
      simp [MemStorage.Burst, hb]
    refine ⟨by rw [hB], by rw [hB]; exact setBucket_self _ _ _, ?_, ?_⟩
    · intro k2 hk2
      rw [hB]
      simp [setBucket, hk2]
    · intro hs hB1 hu hsame
      have hpos : 0 < add64 b.availableTokens B := by
        rw [add64_eq hu]
        omega
      have hb'take := take_no_refill_pos
        ({ b with availableTokens := add64 b.availableTokens B }) nowT
        (le_of_eq hsame) hpos
      have hTk : ((s.Burst key B now).2.Take key nowT).1 =
          (({ b with availableTokens := add64 b.availableTokens B }).take nowT).1 := by
        rw [hB]
        simp [MemStorage.Take, hs, setBucket_self]
      rw [hTk, hb'take.1, hb'take.2]
      refine ⟨rfl, ?_⟩
      simp only []
      rw [add64_eq hu]
  · intro hfresh
    have hB : s.Burst key B now = (none, { s with buckets := setBucket s.buckets key (newBucket (add64 s.tokens B) s.interval now) }) := by
      simp [MemStorage.Burst, hfresh]
    exact ⟨by rw [hB], by rw [hB]; exact setBucket_self _ _ _⟩

/-- Witness for C8: capacity-3 storage, one take (balance 2), burst of
4 (balance 6), then a take at tick 0 succeeding with remaining 5. -/
theorem C8_burst_adds_balance_witness :
    ((((NewMemStorage 3 10).Take "k" 0).2.Burst "k" 4 1).1 = none) ∧
    (((((NewMemStorage 3 10).Take "k" 0).2.Burst "k" 4 1).2.Take "k" 5).1.ok = true) ∧
    (((((NewMemStorage 3 10).Take "k" 0).2.Burst "k" 4 1).2.Take "k" 5).1.remaining = 5) :=
  ⟨((C8_burst_adds_balance (((NewMemStorage 3 10).Take "k" 0).2) "k"
      (bucket.mk 0 3 10 (((10 : ℕ) : ℚ) / ((3 : ℕ) : ℚ)) 2 0) 4 1 5).1 rfl).1,
    (((C8_burst_adds_balance (((NewMemStorage 3 10).Take "k" 0).2) "k"
      (bucket.mk 0 3 10 (((10 : ℕ) : ℚ) / ((3 : ℕ) : ℚ)) 2 0) 4 1 5).1 rfl).2.2.2
      rfl (by decide) (by decide) (by decide)).1,
    (((C8_burst_adds_balance (((NewMemStorage 3 10).Take "k" 0).2) "k"
      (bucket.mk 0 3 10 (((10 : ℕ) : ℚ) / ((3 : ℕ) : ℚ)) 2 0) 4 1 5).1 rfl).2.2.2
      rfl (by decide) (by decide) (by decide)).2⟩

/-- Field-name constants of the server-side script
`src/redisstorage/scripttemplate.lua` (lines 7-11). -/
def luaFIELD_START : String := "s"

def luaFIELD_TICK : String := "t"

def luaFIELD_INTERVAL : String := "i"

def luaFIELD_CURRENT_TOKENS : String := "k"

def luaFIELD_MAX_TOKENS : String := "m"

/-- Field-name constants of the Go Redis client (`redisstorage.go`,
identical in both the redigo and the go-redis variant): note that the
client's current-tokens field is the string "t". -/
def fieldInterval : String := "i"

def fieldMaxTokens : String := "m"

def fieldCurrentTokens : String := "t"

/-- A Redis database restricted to hash-shaped records: key, then
field, to an optional numeric value. Lua numbers (IEEE doubles) are
modelled as `ℚ`, exact at the magnitudes used in the theorems; record
expirations (EXPIRE) carry no content for the claims and are elided. -/
abbrev RStore := String → String → Option ℚ

def emptyRStore : RStore := fun _ _ => none

/-- A single `HSET key field value`. -/
def hsetField (st : RStore) (key field : String) (v : ℚ) : RStore :=
  fun k f => if k = key then (if f = field then some v else st k f) else st k f

/-- Embeds the script's `tick(start, current, interval)`:
`math.floor((current - start) / interval)` clamped below at 0. -/
def luaTick (start current interval : ℚ) : ℚ :=
  let count := (⌊(current - start) / interval⌋ : ℤ)
  if 0 < count then (count : ℚ) else 0

/-- Embeds the script's `availableTokens(lastTick, current, maxTokens,
fillRate)`. In the script the clamp bound is the undefined global
`max` (a script defect); it is read here charitably as the `maxTokens`
parameter. The branch calling this function is unreachable in every
theorem below. -/
def luaAvailableTokens (lastTick current maxTokens fillRate : ℚ) : ℚ :=
  let delta := current - lastTick
  let availableTkns := delta * fillRate
  if availableTkns > maxTokens then maxTokens else availableTkns

/-- Result array of the script: `{maxTokens, tokens, nextTime, success}`. -/
structure LuaResult where
  maxTokens : ℚ
  tokens : ℚ
  nextTime : ℚ
  success : Bool
deriving DecidableEq, Repr

/-- Embeds the body of `scripttemplate.lua` as executed per `Take`.
Transcribed statement-for-statement from the script text; the literal
file additionally has load-time defects (the `local tick(...)` /
`local timeToLive(...)` declarations are not valid Lua syntax, and
`hashGetAll` calls `redis.call(CMD_HGETALL, ...)` with an undefined
name), read here as their evident intent. Field presence
(`isPresent`) is `Option.isSome` (no empty-string values occur);
`EXPIRE` calls are elided. Note the refill guard is transcribed
exactly as written in the script: `if lastTick > currentTick`. -/
def luaTake (st : RStore) (key : String) (now defaultMaxTokens defaultInterval : ℚ) :
    LuaResult × RStore :=
  let data := st key
  let start := (data luaFIELD_START).getD now
  let st1 := if (data luaFIELD_START).isSome then st
    else hsetField st key luaFIELD_START now
  let lastTick := (data luaFIELD_TICK).getD 0
  let st2 := if (data luaFIELD_TICK).isSome then st1
    else hsetField st1 key luaFIELD_TICK 0
  let maxTokens := (data luaFIELD_MAX_TOKENS).getD defaultMaxTokens
  let st3 := if (data luaFIELD_MAX_TOKENS).isSome then st2
    else hsetField st2 key luaFIELD_MAX_TOKENS defaultMaxTokens
  let tokens := (data luaFIELD_CURRENT_TOKENS).getD maxTokens
  let interval := (data luaFIELD_INTERVAL).getD defaultInterval
  let currentTick := luaTick start now interval
  let nextTime := start + (currentTick + 1) * interval
  let refillDue := lastTick > currentTick
  let tokens1 := if refillDue then
      luaAvailableTokens lastTick currentTick maxTokens (interval / tokens)
    else tokens
  let st4 := if refillDue then
      hsetField (hsetField (hsetField (hsetField st3 key luaFIELD_START start)
        key luaFIELD_TICK currentTick) key luaFIELD_INTERVAL interval)
        key luaFIELD_CURRENT_TOKENS tokens1
    else st3
  if tokens1 > 0 then
    (⟨maxTokens, tokens1 - 1, nextTime, true⟩,
      hsetField st4 key luaFIELD_CURRENT_TOKENS (tokens1 - 1))
  else
    (⟨maxTokens, tokens1, nextTime, false⟩, st4)

/-- Embeds the `RedisStorage` struct (both variants): configured
defaults and the atomic stop flag; the connection pool and compiled
script handle carry no sequential content. -/
structure RedisStorage where
  tokens : ℕ
  interval : ℕ
  stopped : Bool

/-- Embeds the `Config.Tokens` / `Config.Interval` resolution shared
verbatim by `NewRedisStorage`, `NewRS` and `NewRSWithPool`: the
configured token count is used only when strictly greater than 9
(`if cfg.Tokens > 9`), otherwise the default 1 applies. -/
def NewRedisStorage (cfgTokens cfgInterval : ℕ) : RedisStorage :=
  { tokens := if 9 < cfgTokens then cfgTokens else 1
    interval := if 0 < cfgInterval then cfgInterval else 1000000000
    stopped := false }

/-- Embeds `(rs *RedisStorage) Take`: stop-flag check, then one atomic
script invocation with the client-side time and configured defaults.
Pool acquisition and the reply-shape check are connection-level
plumbing elided from the state model. -/
def RedisStorage.Take (rs : RedisStorage) (st : RStore) (key : String) (now : ℕ) :
    (ℚ × ℚ × ℚ × Bool × Option GoError) × RStore :=
  if rs.stopped then ((0, 0, 0, false, some GoError.errStopped), st)
  else
    let r := luaTake st key (now : ℚ) (rs.tokens : ℚ) (rs.interval : ℚ)
    ((r.1.maxTokens, r.1.tokens, r.1.nextTime, r.1.success, none), r.2)

/-- Embeds `(rs *RedisStorage) Get`: stop-flag check, then
`HMGET key m t` (absent fields read as zero, as the package test
expects of a never-seen key). -/
def RedisStorage.Get (rs : RedisStorage) (st : RStore) (key : String) :
    ℚ × ℚ × Option GoError :=
  if rs.stopped then (0, 0, some GoError.errStopped)
  else ((st key fieldMaxTokens).getD 0, (st key fieldCurrentTokens).getD 0, none)

/-- Embeds `(rs *RedisStorage) Set`: stop-flag check, then
`HSET key t tokens m tokens i interval` (the 24h EXPIRE is elided). -/
def RedisStorage.Set (rs : RedisStorage) (st : RStore) (key : String)
    (tokens interval : ℕ) : Option GoError × RStore :=
  if rs.stopped then (some GoError.errStopped, st)
  else (none, hsetField (hsetField (hsetField st key fieldCurrentTokens (tokens : ℚ))
    key fieldMaxTokens (tokens : ℚ)) key fieldInterval (interval : ℚ))

/-- Embeds `(rs *RedisStorage) Burst`: stop-flag check, then
`HINCRBY key t tokens` (absent field counts as 0; EXPIRE elided). -/
def RedisStorage.Burst (rs : RedisStorage) (st : RStore) (key : String)
    (tokens : ℕ) : Option GoError × RStore :=
  if rs.stopped then (some GoError.errStopped, st)
  else (none, hsetField st key fieldCurrentTokens
    ((st key fieldCurrentTokens).getD 0 + (tokens : ℚ)))

/-- Embeds `(rs *RedisStorage) Close`: the compare-and-swap returns
`nil` when already stopped; otherwise the flag is set (pool closing
elided). -/
def RedisStorage.Close (rs : RedisStorage) : Option GoError × RedisStorage :=
  if rs.stopped then (none, rs)
  else (none, { rs with stopped := true })

/-- CLAIM C10. For every distributed-storage config with
`1 ≤ Tokens ≤ 9`, the constructors (`NewRedisStorage`, and `NewRS` /
`NewRSWithPool`, which share the identical resolution embedded in
`NewRedisStorage`) ignore the configured value and use the default
capacity 1; the configured value takes effect only when `Tokens > 9`.
The in-process constructor honors every `Tokens > 0`. -/
theorem C10_constructor_tokens_threshold (cfgTokens cfgInterval : ℕ) :
    (1 ≤ cfgTokens → cfgTokens ≤ 9 → (NewRedisStorage cfgTokens cfgInterval).tokens = 1) ∧
    (9 < cfgTokens → (NewRedisStorage cfgTokens cfgInterval).tokens = cfgTokens) ∧
    (0 < cfgTokens → (NewMemStorage cfgTokens cfgInterval).tokens = cfgTokens) := by
  refine ⟨?_, ?_, ?_⟩
  · intro h1 h2
    simp only [NewRedisStorage]
    rw [if_neg (by omega)]
  · intro h
    simp only [NewRedisStorage]
    rw [if_pos h]
  · intro h
    simp only [NewMemStorage]
    rw [if_pos h]

/-- Witness for C10: configured Tokens 5 gives capacity 1 in the
distributed constructor but 5 in the in-process one; configured
Tokens 12 is honored by the distributed constructor. -/
theorem C10_constructor_tokens_threshold_witness :
    (NewRedisStorage 5 7).tokens = 1 ∧ (NewMemStorage 5 7).tokens = 5 ∧
    (NewRedisStorage 12 7).tokens = 12 :=
  ⟨(C10_constructor_tokens_threshold 5 7).1 (by decide) (by decide),
    (C10_constructor_tokens_threshold 5 7).2.2 (by decide),
    (C10_constructor_tokens_threshold 12 7).2.1 (by decide)⟩

/-- CLAIM C9. On a live storage of either backend, `Set(key, T, D)`
followed immediately by `Get(key)` returns `limit = T` and
`remaining = T`. In-process, `Set` installs `newBucket T D` whose
capacity and balance are both `T`; distributed, `Set` writes `T` to
both the `m` and the `t` field and `Get` reads those two fields
back. -/
theorem C9_set_then_get (s : MemStorage) (rs : RedisStorage) (st : RStore)
    (key : String) (T D nowS : ℕ) (hs : s.stopped = false) (hrs : rs.stopped = false) :
    ((s.Set key T D nowS).2.Get key) = (T, T, none) ∧
    (rs.Get ((rs.Set st key T D).2) key) = ((T : ℚ), (T : ℚ), none) := by
  constructor
  · simp [MemStorage.Set, MemStorage.Get, hs, setBucket, bucket.get, newBucket]
  · simp +decide [RedisStorage.Set, RedisStorage.Get, hrs, hsetField,
      fieldInterval, fieldMaxTokens, fieldCurrentTokens]

/-- Witness for C9: `Set("k", 5, 9)` then `Get("k")` yields
`(5, 5, nil)` on both backends. -/
theorem C9_set_then_get_witness :
    (((NewMemStorage 1 1).Set "k" 5 9 0).2.Get "k") = (5, 5, none) ∧
    ((NewRedisStorage 1 1).Get (((NewRedisStorage 1 1).Set emptyRStore "k" 5 9).2) "k") =
      (((5 : ℕ) : ℚ), ((5 : ℕ) : ℚ), none) :=
  C9_set_then_get (NewMemStorage 1 1) (NewRedisStorage 1 1) emptyRStore "k" 5 9 0 rfl rfl

/-- CLAIM C4 counterexample. The claim says every post-`Close` call of
`Take`/`Get`/`Set`/`Burst` fails with the stopped error and leaves the
stored state unchanged. On the in-process backend, `Set` after `Close`
performs no stopped-flag check: it returns `nil` (not the stopped
error) and installs a bucket into the cleared map. -/
theorem C4_counterexample_set_after_close :
    (((NewMemStorage 1 1).Close).2.Set "k" 5 9 0).1 = none ∧
    (((NewMemStorage 1 1).Close).2.Set "k" 5 9 0).1 ≠ some GoError.errStopped ∧
    ((NewMemStorage 1 1).Close).2.buckets "k" = none ∧
    (((NewMemStorage 1 1).Close).2.Set "k" 5 9 0).2.buckets "k" = some (newBucket 5 9 0) :=
  ⟨rfl, by decide, rfl, rfl⟩

/-- CLAIM C4, amended. After `Close` (stop flag set): the in-process
`Take` and `Get` fail with the dedicated stopped error without touching
state, `Take` additionally returning zero limit/remaining/reset and
`ok = false`; the distributed `Take`, `Get`, `Set` and `Burst` all fail
with the stopped error without touching the store, `Take` likewise
returning zeros and `ok = false`; but the in-process `Set` and `Burst`
perform no stopped check and return `nil`. -/
theorem C4_amended_stopped_behavior (s : MemStorage) (rs : RedisStorage) (st : RStore)
    (key : String) (now T D B nowS : ℕ)
    (hs : s.stopped = true) (hrs : rs.stopped = true) :
    s.Take key now = (⟨0, 0, 0, false, some GoError.errStopped⟩, s) ∧
    s.Get key = (0, 0, some GoError.errStopped) ∧
    (s.Set key T D nowS).1 = none ∧
    (s.Burst key B nowS).1 = none ∧
    rs.Take st key now = ((0, 0, 0, false, some GoError.errStopped), st) ∧
    rs.Get st key = (0, 0, some GoError.errStopped) ∧
    rs.Set st key T D = (some GoError.errStopped, st) ∧
    rs.Burst st key B = (some GoError.errStopped, st) := by
  refine ⟨?_, ?_, ?_, ?_, ?_, ?_, ?_, ?_⟩
  · simp [MemStorage.Take, hs]
  · simp [MemStorage.Get, hs]
  · simp [MemStorage.Set]
  · cases hbk : s.buckets key <;> simp [MemStorage.Burst, hbk]
  · simp [RedisStorage.Take, hrs]
  · simp [RedisStorage.Get, hrs]
  · simp [RedisStorage.Set, hrs]
  · simp [RedisStorage.Burst, hrs]

/-- Witness for the amended C4, on freshly closed storages of both
backends. -/
theorem C4_amended_stopped_behavior_witness :
    ((NewMemStorage 1 1).Close).2.Take "k" 3 =
      (⟨0, 0, 0, false, some GoError.errStopped⟩, ((NewMemStorage 1 1).Close).2) ∧
    ((NewMemStorage 1 1).Close).2.Get "k" = (0, 0, some GoError.errStopped) ∧
    (((NewMemStorage 1 1).Close).2.Set "k" 5 9 0).1 = none ∧
    (((NewMemStorage 1 1).Close).2.Burst "k" 2 0).1 = none ∧
    ((NewRedisStorage 1 1).Close).2.Take emptyRStore "k" 3 =
      ((0, 0, 0, false, some GoError.errStopped), emptyRStore) ∧
    ((NewRedisStorage 1 1).Close).2.Get emptyRStore "k" = (0, 0, some GoError.errStopped) ∧
    ((NewRedisStorage 1 1).Close).2.Set emptyRStore "k" 5 9 = (some GoError.errStopped, emptyRStore) ∧
    ((NewRedisStorage 1 1).Close).2.Burst emptyRStore "k" 2 = (some GoError.errStopped, emptyRStore) :=
  C4_amended_stopped_behavior ((NewMemStorage 1 1).Close).2 ((NewRedisStorage 1 1).Close).2
    emptyRStore "k" 3 5 9 2 0 rfl rfl

/-- CLAIM C6. The claim says the Take script and the Go client's `Get`,
`Set`, `Burst` agree that field "t" holds the last tick and one single
dedicated field holds the balance. They do not: the script keeps the
tick in "t" and the balance in "k", while the client reads, initializes
and increments the balance at "t". Concretely, a first `Take` on a
fresh key (defaults 10 tokens / 100ns) succeeds with remaining 9 and
persists 9 at field "k" and tick 0 at field "t" — after which the
client's `Get` reports `remaining = 0`, reading the tick field, not the
balance the script persisted. -/
theorem C6_field_layout_mismatch :
    fieldCurrentTokens = luaFIELD_TICK ∧
    fieldCurrentTokens ≠ luaFIELD_CURRENT_TOKENS ∧
    (luaTake emptyRStore "k" 0 10 100).1 = ⟨10, 9, 100, true⟩ ∧
    (luaTake emptyRStore "k" 0 10 100).2 "k" luaFIELD_CURRENT_TOKENS = some 9 ∧
    (luaTake emptyRStore "k" 0 10 100).2 "k" luaFIELD_TICK = some 0 ∧
    (NewRedisStorage 10 100).Get ((luaTake emptyRStore "k" 0 10 100).2) "k" =
      (10, 0, none) := by
  refine ⟨rfl, by decide, ?_, ?_, ?_, ?_⟩
  · norm_num [luaTake, luaTick, emptyRStore]
  · simp +decide [luaTake, luaTick, emptyRStore, hsetField, luaFIELD_START, luaFIELD_TICK,
      luaFIELD_MAX_TOKENS, luaFIELD_CURRENT_TOKENS]
    all_goals norm_num
  · simp +decide [luaTake, luaTick, emptyRStore, hsetField, luaFIELD_START, luaFIELD_TICK,
      luaFIELD_MAX_TOKENS, luaFIELD_CURRENT_TOKENS]
  · simp +decide [RedisStorage.Get, NewRedisStorage, luaTake, luaTick, emptyRStore,
      hsetField, luaFIELD_START, luaFIELD_TICK, luaFIELD_MAX_TOKENS,
      luaFIELD_CURRENT_TOKENS, fieldMaxTokens, fieldCurrentTokens]

/-- A stored record at key "k" holding `s = 0`, `t = 0` (last tick),
`k = 0` (balance drained), `m = 5`, `i = 100`, as the script itself
lays records out. -/
def luaRefillStore : RStore := fun kk f =>
  if kk = "k" then
    (if f = "s" then some 0 else if f = "t" then some 0 else if f = "k" then some 0
      else if f = "m" then some 5 else if f = "i" then some 100 else none)
  else none

/-- CLAIM C2. In the in-process bucket the refill fires exactly when the
current tick exceeds `lastTick` (first two conjuncts: the drained Go
bucket with `lastTick = 0` taken at one elapsed tick refills to
`min(5, ⌊1·fillRate⌋) = 5`, consumes, succeeds with remaining 4 and
advances `lastTick` to 1; `fillRate = 100/5 = 20` is the value
`newBucket` derives, exact in float64). The server-side script does
not: its guard is written `if lastTick > currentTick`, so on the same
state (record drained, `lastTick = 0`, current tick
`luaTick 0 100 100 = 1`) no refill happens — the take fails with
balance 0, and fields `t` and `k` are left at 0 instead of the tick
advancing to 1 and the balance being refilled. -/
theorem C2_lua_refill_guard_reversed :
    (newBucket 5 100 0).fillRate = 20 ∧
    (bucket.mk 0 5 100 20 0 0).take 100 =
      (⟨5, 4, 200, true, none⟩, bucket.mk 0 5 100 20 4 1) ∧
    luaTick 0 100 100 = 1 ∧
    (luaTake luaRefillStore "k" 100 5 100).1 = ⟨5, 0, 200, false⟩ ∧
    (luaTake luaRefillStore "k" 100 5 100).2 "k" luaFIELD_TICK = some 0 ∧
    (luaTake luaRefillStore "k" 100 5 100).2 "k" luaFIELD_CURRENT_TOKENS = some 0 := by
  have hsub : sub64 1 0 = 1 := by decide
  have htick : tick 0 100 100 = 1 := by decide
  have hav : availableTokens 0 1 5 20 = 5 := by
    simp [availableTokens, hsub]
  refine ⟨?_, ?_, ?_, ?_, ?_, ?_⟩
  · norm_num [newBucket]
  · simp [bucket.take, htick, availableTokensCalc, hav]
    decide
  · norm_num [luaTick]
  · simp +decide [luaTake, luaTick, luaRefillStore, luaFIELD_START, luaFIELD_TICK,
      luaFIELD_MAX_TOKENS, luaFIELD_CURRENT_TOKENS, luaFIELD_INTERVAL]
    norm_num
  · simp +decide [luaTake, luaTick, luaRefillStore, hsetField, luaFIELD_START,
      luaFIELD_TICK, luaFIELD_MAX_TOKENS, luaFIELD_CURRENT_TOKENS, luaFIELD_INTERVAL]
  · simp +decide [luaTake, luaTick, luaRefillStore, hsetField, luaFIELD_START,
      luaFIELD_TICK, luaFIELD_MAX_TOKENS, luaFIELD_CURRENT_TOKENS, luaFIELD_INTERVAL]
